import Mathlib

/-!
Verification of the chunked-array transfer scripts of the ome/omero-ms-zarr
repository against their specification.  The definitions below are shallow
embeddings of:

* `src/scripts/fetch-ms-zarr.py` — chunk coordinate enumeration
  (`range(0, -(-s // c))` composed with `itertools.product`), the per-dataset
  chunk transfer loop, the dry-run branch, the metadata sidecar writes, and
  the `datasets` name-binding behaviour when `multiscales` is empty;
* `src/scripts/scale.py` — the `local_mean` and `zoom` pyramid methods, the
  `--labeled` validation check and dataset persistence;
* `examples/idr2zarr/idr-image2zarr.py` — the resume-mode download loop;
* `src/scripts/omero_to_zarr.py` — `image_to_zarr`'s zct list construction
  and the positionally aligned plane-consuming write loop.

Machine integers are modelled as `Nat`/`Int` (Python integers are unbounded,
so no wrap-around modelling is needed).  External collaborators (HTTP, the
JSON library, skimage/scipy reductions, the OMERO pixel service) appear as
explicit parameters of the embedded functions.  The file is organised as
definitions first, then the theorems about them.
-/

namespace OmeZarr

/-! ## Definitions: chunk coordinate enumeration
(`fetch-ms-zarr.py` lines 86-87)

The script computes per-dimension chunk counts with Python's
`-(-s // c)` (ceiling division via floor division of negatives) and then
iterates `itertools.product` over the resulting `range`s, dimension 0
outermost. -/

/-- Python's floor division `a // b` on integers. -/
def pyFloorDiv (a b : Int) : Int := Int.fdiv a b

/-- The script's chunk count per dimension: `-(-s // c)` from line 86. -/
def pyCeilDiv (s c : Nat) : Nat := (-(pyFloorDiv (-(s : Int)) (c : Int))).toNat

/-- `itertools.product` over a list of ranges: Cartesian product with the
first factor varying slowest, each element a coordinate list. -/
def itProduct : List (List Nat) → List (List Nat)
  | [] => [[]]
  | r :: rs => r.flatMap (fun x => (itProduct rs).map (fun ys => x :: ys))

/-- Line 86: `ranges = [range(0, -(-s // c)) for (s, c) in zip(shape, chunks)]`. -/
def chunkRanges (shape chunks : List Nat) : List (List Nat) :=
  List.zipWith (fun s c => List.range (pyCeilDiv s c)) shape chunks

/-- Lines 86-87: the full chunk coordinate sequence of one zarr array. -/
def chunkCoords (shape chunks : List Nat) : List (List Nat) :=
  itProduct (chunkRanges shape chunks)

/-! ## Definitions: the fetch-ms-zarr transfer driver
(`fetch-ms-zarr.py` lines 50-114)

The script's observable behaviour is modelled as a trace of effects plus an
outcome.  HTTP and the Python `json` library are external collaborators and
appear as parameters: a `Source` record answering the HTTP requests the
script issues, and a `JsonModel` record providing `json.loads`/`json.dumps`
together with the dictionary accesses the script performs on the parsed
documents (`zattrs['multiscales']`, the `'path'` entries of
`multiscale['datasets']`, `zarray['shape']`, `zarray['chunks']`). -/

/-- Result of `requests.get` of one chunk (line 98): a 200 response with
body bytes, a 404 (chunk absent at the source), or a connection-level
failure.  The script distinguishes only 200 from everything else. -/
inductive FetchRes where
  | found (content : String)
  | notFound
  | transientError
  deriving DecidableEq, Repr

/-- One observable effect of a script run:
`headReq` models `requests.head` of a chunk URI (line 91), `getReq` models
`requests.get` of a chunk URI (line 98), `chunkWrite` models the chunk
payload write `file.write(response.content)` (lines 104-105), `metaWrite`
models the metadata sidecar writes `print(json.dumps(...), file=open(...))`
(lines 110-114; `print` appends a newline to its argument). -/
inductive Effect where
  | headReq (uri : String)
  | getReq (uri : String)
  | chunkWrite (name content : String)
  | metaWrite (name content : String)
  deriving DecidableEq, Repr

/-- `headReq` discriminator. -/
def Effect.isHeadReq : Effect → Bool
  | .headReq _ => true
  | _ => false

/-- `getReq` discriminator. -/
def Effect.isGetReq : Effect → Bool
  | .getReq _ => true
  | _ => false

/-- `chunkWrite` discriminator. -/
def Effect.isChunkWrite : Effect → Bool
  | .chunkWrite _ _ => true
  | _ => false

/-- `metaWrite` discriminator. -/
def Effect.isMetaWrite : Effect → Bool
  | .metaWrite _ _ => true
  | _ => false

/-- Any local file write, chunk payload or metadata sidecar. -/
def Effect.isFileWrite : Effect → Bool
  | .chunkWrite _ _ => true
  | .metaWrite _ _ => true
  | _ => false

/-- Line 88: `'.'.join(map(str, chunk))`. -/
def chunkName (coord : List Nat) : String :=
  String.intercalate "." (coord.map toString)

/-- The external HTTP collaborator: what the remote source answers to each
request the script can issue. -/
structure Source where
  zgroup : Option String
  zattrs : Option String
  zarray : String → Option String
  head : String → Bool
  get : String → FetchRes

/-- The external JSON collaborator: `json.loads`/`json.dumps` over an
abstract parsed-document type `J`, plus the dictionary accesses the script
performs.  `multiscales` returns, for each entry of `zattrs['multiscales']`,
the list of its datasets' `path` values. -/
structure JsonModel (J : Type) where
  loads : String → J
  dumps : J → String
  multiscales : J → List (List String)
  shape : J → List Nat
  chunks : J → List Nat

/-- The per-dataset chunk transfer loop, lines 87-108: for each chunk
coordinate, in dry-run mode issue a HEAD request and stop with exit code 2
on the first non-200 answer; otherwise GET the chunk, write its bytes
locally on 200, and stop with exit code 2 on anything else.  Returns the
effect trace and `some errorMessage` when `sys.exit(2)` was reached. -/
def chunkLoop (dryRun : Bool) (head : String → Bool) (get : String → FetchRes)
    (datasetUri localPrefix : String) :
    List (List Nat) → List Effect × Option String
  | [] => ([], none)
  | coord :: rest =>
      let nameS := chunkName coord
      if dryRun then
        if head (datasetUri ++ nameS) then
          let r := chunkLoop dryRun head get datasetUri localPrefix rest
          (.headReq (datasetUri ++ nameS) :: r.1, r.2)
        else
          ([.headReq (datasetUri ++ nameS)],
           some ("check failed for chunk " ++ nameS))
      else
        match get (datasetUri ++ nameS) with
        | .found content =>
            let r := chunkLoop dryRun head get datasetUri localPrefix rest
            (.getReq (datasetUri ++ nameS)
              :: .chunkWrite (localPrefix ++ nameS) content :: r.1, r.2)
        | _ =>
            ([.getReq (datasetUri ++ nameS)],
             some ("failed to fetch chunk " ++ nameS))

/-- The dataset loop, lines 72-110: fetch each dataset's `.zarray`, exit 2
if absent, run the chunk loop over `chunkCoords shape chunks`, and after a
completed chunk loop write the re-serialized `.zarray` sidecar. -/
def datasetLoop {J : Type} (jm : JsonModel J) (src : Source)
    (dryRun isMultiscale : Bool) (baseUri : String) :
    List String → List Effect × Option String
  | [] => ([], none)
  | path :: rest =>
      let datasetPath := path ++ "/"
      let datasetUri := baseUri ++ datasetPath
      let localPrefix := if isMultiscale then datasetPath else ""
      match src.zarray datasetUri with
      | none => ([], some ("no resolution found at " ++ datasetUri))
      | some zarrayRaw =>
          let zarrayJ := jm.loads zarrayRaw
          let coords := chunkCoords (jm.shape zarrayJ) (jm.chunks zarrayJ)
          let r := chunkLoop dryRun src.head src.get datasetUri localPrefix coords
          match r.2 with
          | some msg => (r.1, some msg)
          | none =>
              let r' := datasetLoop jm src dryRun isMultiscale baseUri rest
              (r.1 ++ .metaWrite (localPrefix ++ ".zarray")
                  (jm.dumps zarrayJ ++ "\n") :: r'.1, r'.2)

/-- How a run of the script ends: normal completion, `sys.exit(2)` with a
printed message, or the unhandled `NameError` raised at line 72 when the
variable `datasets` was never assigned (lines 64-69 only assign it when
`zattrs['multiscales']` is non-empty). -/
inductive Outcome where
  | completed
  | exit2 (msg : String)
  | nameError
  deriving DecidableEq, Repr

/-- The whole script run, lines 50-114: fetch and parse `.zgroup` and
`.zattrs` (exit 2 if either is absent), bind `datasets` only when the
`multiscales` list is non-empty (`datasets = none` models the unassigned
variable), loop over the datasets, and finally write the re-serialized
`.zgroup`/`.zattrs` sidecars when multiscale. -/
def runFetchScript {J : Type} (jm : JsonModel J) (src : Source)
    (dryRun : Bool) (baseUri : String) : List Effect × Outcome :=
  match src.zgroup with
  | none => ([], .exit2 ("no image found at " ++ baseUri))
  | some zgroupRaw =>
      match src.zattrs with
      | none => ([], .exit2 ("no image found at " ++ baseUri))
      | some zattrsRaw =>
          let zattrsJ := jm.loads zattrsRaw
          let multiscales := jm.multiscales zattrsJ
          let isMultiscale := decide (0 < multiscales.length)
          let datasets : Option (List String) :=
            if 0 < multiscales.length then some (multiscales.headD []) else none
          match datasets with
          | none => ([], .nameError)
          | some ds =>
              let r := datasetLoop jm src dryRun isMultiscale baseUri ds
              match r.2 with
              | some msg => (r.1, .exit2 msg)
              | none =>
                  if isMultiscale then
                    (r.1 ++ [.metaWrite ".zgroup"
                               (jm.dumps (jm.loads zgroupRaw) ++ "\n"),
                             .metaWrite ".zattrs" (jm.dumps zattrsJ ++ "\n")],
                     .completed)
                  else (r.1, .completed)

/-! ## Definitions: the scale.py pyramid builder (`scale.py` lines 88-106
and 112-151)

The skimage/scipy reduction kernels are external collaborators: the
`local_mean` method is parameterised over the reduction `reduce` applied to
the previous level, the `zoom` method over the scipy `zoom` function applied
to the base array and an integer factor. -/

/-- The `local_mean` method, lines 88-95: start from `rv = [base]` and, for
each of `max_layer` iterations, append the reduction of the last element
(`rv[-1]`, modelled as `getLastD _ base`; `rv` is never empty). -/
def methodLocalMean {α : Type} (reduce : α → α) (maxLayer : Nat)
    (base : α) : List α :=
  (List.range maxLayer).foldl
    (fun rv _ => rv ++ [reduce (rv.getLastD base)]) [base]

/-- The `zoom` method, lines 97-106: start from `rv = [base]`, for
`i in range(max_layer)` append `zoom(base, downscale ** i)` — always applied
to the original `base` — then return `list(reversed(rv))`. -/
def methodZoom {α : Type} (zoomF : α → Nat → α) (downscale maxLayer : Nat)
    (base : α) : List α :=
  ((List.range maxLayer).foldl
    (fun rv i => rv ++ [zoomF base (downscale ^ i)]) [base]).reverse

/-- The `--labeled` validation, lines 122-131: with
`expected = set(np.unique(pyramid[0]))`, every later level's value set must
be a subset of `expected`; returns `true` when the check passes.  The value
sets delivered by `np.unique` are modelled by a function `vals` on levels. -/
def labeledCheck {α V : Type} [DecidableEq V] (vals : α → Finset V) :
    List α → Bool
  | [] => true
  | p0 :: rest => rest.all (fun l => decide (vals l ⊆ vals p0))

/-- The persistence phase of `scale.py`, lines 122-151: when `--labeled` is
set and the subset check fails, an exception is raised before any dataset is
created; otherwise the `"base"` dataset is created and then one dataset per
downsampled level, named by its index.  Returns whether the consistency
exception was raised, together with the list of dataset paths persisted. -/
def runScale {α V : Type} [DecidableEq V] (labeled : Bool)
    (vals : α → Finset V) (pyramid : List α) : Bool × List String :=
  if labeled && !(labeledCheck vals pyramid) then (true, [])
  else
    (false,
     "base" :: ((List.range pyramid.length).drop 1).map (fun i => toString i))

/-! ## Definitions: the idr-image2zarr resume-mode download loop
(`examples/idr2zarr/idr-image2zarr.py` lines 29-39) -/

/-- One observable effect of the download loop: the `os.path.exists` check
(line 34), the `px.getPlane(z, c, t)` fetch (line 38), and the
`np.save(filename, p)` store (line 39). -/
inductive IdrEv where
  | existsCheck (coord : Nat × Nat × Nat)
  | planeFetch (coord : Nat × Nat × Nat)
  | save (coord : Nat × Nat × Nat)
  deriving DecidableEq, Repr

/-- `planeFetch` discriminator. -/
def IdrEv.isPlaneFetch : IdrEv → Bool
  | .planeFetch _ => true
  | _ => false

/-- `save` discriminator. -/
def IdrEv.isSave : IdrEv → Bool
  | .save _ => true
  | _ => false

/-- `existsCheck` discriminator. -/
def IdrEv.isExistsCheck : IdrEv → Bool
  | .existsCheck _ => true
  | _ => false

/-- Line 29: `zcts = itertools.product(*map(range, shape[2:]))` over the
(Z, C, T) extents. -/
def idrCoords (sizeZ sizeC sizeT : Nat) : List (Nat × Nat × Nat) :=
  (List.range sizeZ).flatMap (fun z =>
    (List.range sizeC).flatMap (fun c =>
      (List.range sizeT).map (fun t => (z, c, t))))

/-- Lines 32-39: for each coordinate check existence; when the file exists,
skip (`continue`) with no fetch or store; otherwise fetch the plane and save
it. -/
def idrDownloadLoop (exs : Nat × Nat × Nat → Bool) :
    List (Nat × Nat × Nat) → List IdrEv
  | [] => []
  | c :: cs =>
      if exs c then .existsCheck c :: idrDownloadLoop exs cs
      else .existsCheck c :: .planeFetch c :: .save c :: idrDownloadLoop exs cs

/-! ## Definitions: omero_to_zarr.py `image_to_zarr`
(`omero_to_zarr.py` lines 69-108)

The request list `zct_list` is built by a z-outer, c-middle, t-inner triple
loop (lines 82-85); `pixels.getPlanes(zct_list)` yields one plane per entry
in list order (modelled by mapping an abstract `getPlane` over the list);
the consuming loop (lines 94-108) iterates the textually identical triple
loop, pulls planes positionally with `next(planes)`, and writes each plane
to `za[c, z, t]`. -/

/-- Lines 82-85: `zct_list`, z outermost, then c, then t. -/
def zctList (sizeZ sizeC sizeT : Nat) : List (Nat × Nat × Nat) :=
  (List.range sizeZ).flatMap (fun z =>
    (List.range sizeC).flatMap (fun c =>
      (List.range sizeT).map (fun t => (z, c, t))))

/-- Lines 87-92: `planeGen()` yields `pixels.getPlanes(zct_list)` in order. -/
def planeGen {P : Type} (getPlane : Nat × Nat × Nat → P)
    (zcts : List (Nat × Nat × Nat)) : List P :=
  zcts.map getPlane

/-- Lines 94-108: walk the coordinate order, pull the next plane
positionally, and record the write `za[c, z, t] = plane`.  The second list
running dry models `next()` raising `StopIteration` (unreachable when the
generator was built from the same coordinate list). -/
def consumeWrites {P : Type} :
    List (Nat × Nat × Nat) → List P → List ((Nat × Nat × Nat) × P)
  | [], _ => []
  | _ :: _, [] => []
  | (z, c, t) :: rest, p :: ps => ((c, z, t), p) :: consumeWrites rest ps

/-- The write trace of `image_to_zarr`: the consuming loop iterates the same
z-outer, c-middle, t-inner order as the `zct_list` builder and consumes the
plane sequence positionally. -/
def imageToZarrWrites {P : Type} (getPlane : Nat × Nat × Nat → P)
    (sizeZ sizeC sizeT : Nat) : List ((Nat × Nat × Nat) × P) :=
  consumeWrites (zctList sizeZ sizeC sizeT)
    (planeGen getPlane (zctList sizeZ sizeC sizeT))

/-! ## Definitions: concrete collaborators used by witnesses and
counterexamples -/

/-- A degenerate JSON collaborator over raw strings: `loads`/`dumps` are the
identity, the image has one multiscale with one dataset `"0"`, and every
`.zarray` parses to shape `[1]`, chunks `[1]`. -/
def jmId : JsonModel String :=
  ⟨id, id, fun _ => [["0"]], fun _ => [1], fun _ => [1]⟩

/-- A JSON collaborator like `jmId` whose `multiscales` list is empty. -/
def jmNoMs : JsonModel String :=
  ⟨id, id, fun _ => [], fun _ => [1], fun _ => [1]⟩

/-- A remote source where every document and chunk is present: `.zgroup`
bytes are `"null"` (a valid JSON document with no trailing newline),
`.zattrs` bytes `"1"`, every `.zarray` `"2"`, every HEAD answers 200, every
chunk GET answers 200 with body `"B"`. -/
def srcAll : Source :=
  ⟨some "null", some "1", fun _ => some "2", fun _ => true, fun _ => .found "B"⟩

/-- A source whose chunk `"2"` of dataset URI `"0/"` is absent (used for the
transfer-halt witness): GET of URI `"0/2"` yields 404, all other chunks are
present with body `"P"`. -/
def srcFail3 : Source :=
  ⟨some "null", some "1", fun _ => some "2", fun _ => true,
   fun uri => if uri = "0/2" then .notFound else .found "P"⟩

/-! ## Theorems: chunk coordinate enumeration (Claim C1) -/

/-- For a positive divisor, Python's `-(-s // c)` is exactly ⌈s/c⌉,
written `(s + c - 1) / c` in natural-number arithmetic. -/
theorem pyCeilDiv_eq (s c : Nat) (hc : 0 < c) :
    pyCeilDiv s c = (s + c - 1) / c := by
  have hcI : (0 : Int) < (c : Int) := by exact_mod_cast hc
  have h0 : c * ((s + c - 1) / c) + (s + c - 1) % c = s + c - 1 :=
    Nat.div_add_mod _ _
  have hrn : (s + c - 1) % c < c := Nat.mod_lt _ hc
  have h0I : (c : Int) * (((s + c - 1) / c : Nat) : Int)
      + (((s + c - 1) % c : Nat) : Int) = (s : Int) + c - 1 := by
    calc (c : Int) * (((s + c - 1) / c : Nat) : Int)
        + (((s + c - 1) % c : Nat) : Int)
        = ((c * ((s + c - 1) / c) + (s + c - 1) % c : Nat) : Int) := by
          push_cast; ring
      _ = (((s + c - 1 : Nat)) : Int) := by rw [h0]
      _ = (s : Int) + c - 1 := by omega
  have key : (-(s : Int)) / (c : Int) = -((((s + c - 1) / c : Nat)) : Int) ∧
      (-(s : Int)) % (c : Int)
        = (c : Int) - 1 - (((s + c - 1) % c : Nat) : Int) := by
    refine (Int.ediv_emod_unique hcI).mpr ⟨by linarith [h0I], by omega, by omega⟩
  unfold pyCeilDiv pyFloorDiv
  rw [Int.fdiv_eq_ediv _ (le_of_lt hcI), key.1, neg_neg, Int.toNat_natCast]

/-- The number of coordinates `itertools.product` yields is the product of
the range lengths. -/
theorem length_itProduct (rss : List (List Nat)) :
    (itProduct rss).length = (rss.map List.length).prod := by
  induction rss with
  | nil => rfl
  | cons r rs ih =>
      simp only [itProduct, List.length_flatMap, List.map_map,
        Function.comp_def, List.length_map, ih, List.map_cons, List.prod_cons]
      simp [List.map_const', List.sum_replicate, smul_eq_mul, Nat.mul_comm]

/-- `itertools.product` of duplicate-free ranges yields duplicate-free
coordinates. -/
theorem nodup_itProduct (rss : List (List Nat))
    (h : ∀ r ∈ rss, r.Nodup) : (itProduct rss).Nodup := by
  induction rss with
  | nil => simp [itProduct]
  | cons r rs ih =>
      rw [itProduct, List.nodup_flatMap]
      refine ⟨fun x _ => ?_, ?_⟩
      · exact (ih (fun r' hr' => h r' (List.mem_cons_of_mem _ hr'))).map
          (fun a b hab => by injection hab)
      · refine (h r (List.mem_cons_self _ _)).imp ?_
        intro a b hab
        show List.Disjoint _ _
        intro ys hys hys'
        obtain ⟨zs, _, rfl⟩ := List.mem_map.mp hys
        obtain ⟨ws, _, hcons⟩ := List.mem_map.mp hys'
        exact hab (by injection hcons with h1 _; exact h1.symm)

/-- `itertools.product` of strictly increasing ranges is strictly
lexicographically increasing, with the first dimension varying slowest. -/
theorem pairwise_lex_itProduct (rss : List (List Nat))
    (h : ∀ r ∈ rss, r.Pairwise (· < ·)) :
    (itProduct rss).Pairwise (List.Lex (· < ·)) := by
  induction rss with
  | nil => simp [itProduct]
  | cons r rs ih =>
      rw [itProduct, List.pairwise_flatMap]
      refine ⟨fun a _ => ?_, ?_⟩
      · exact List.pairwise_map.mpr
          ((ih (fun r' hr' => h r' (List.mem_cons_of_mem _ hr'))).imp
            (fun hlex => List.Lex.cons hlex))
      · refine (h r (List.mem_cons_self _ _)).imp ?_
        intro a b hab x hx y hy
        obtain ⟨ys, _, rfl⟩ := List.mem_map.mp hx
        obtain ⟨zs, _, rfl⟩ := List.mem_map.mp hy
        exact List.Lex.rel hab

/-- Ceiling division of zero is zero, so a zero-extent dimension contributes
an empty range. -/
theorem pyCeilDiv_zero (c : Nat) : pyCeilDiv 0 c = 0 := by
  simp [pyCeilDiv, pyFloorDiv, Int.zero_fdiv]

/-- If one of the ranges is empty, the Cartesian product is empty. -/
theorem itProduct_of_mem_nil (rss : List (List Nat)) (h : [] ∈ rss) :
    itProduct rss = [] := by
  induction rss with
  | nil => cases h
  | cons r rs ih =>
      rcases List.mem_cons.mp h with rfl | h'
      · rfl
      · simp [itProduct, ih h']

/-- Every entry of `chunkRanges` is a `List.range`. -/
theorem mem_chunkRanges (S C : List Nat) (r : List Nat)
    (h : r ∈ chunkRanges S C) : ∃ n, r = List.range n := by
  induction S generalizing C with
  | nil => cases h
  | cons s S' ih =>
      cases C with
      | nil => cases h
      | cons c C' =>
          rcases List.mem_cons.mp h with rfl | h'
          · exact ⟨pyCeilDiv s c, rfl⟩
          · exact ih C' h'

/-- With positive chunk sizes, the per-dimension chunk counts computed by
the script coincide with mathematical ceiling division. -/
theorem zipWith_pyCeilDiv_eq (S C : List Nat) (hpos : ∀ c ∈ C, 0 < c) :
    List.zipWith pyCeilDiv S C
      = List.zipWith (fun s c => (s + c - 1) / c) S C := by
  induction S generalizing C with
  | nil => rfl
  | cons s S' ih =>
      cases C with
      | nil => rfl
      | cons c C' =>
          simp only [List.zipWith_cons_cons]
          refine congrArg₂ _ ?_ ?_
          · exact pyCeilDiv_eq s c (hpos c (List.mem_cons_self _ _))
          · exact ih C' (fun c' hc' => hpos c' (List.mem_cons_of_mem _ hc'))

/-- If some extent is zero, one of the computed ranges is empty. -/
theorem chunkRanges_mem_nil (S C : List Nat) (hlen : S.length = C.length)
    (h0 : 0 ∈ S) : [] ∈ chunkRanges S C := by
  induction S generalizing C with
  | nil => cases h0
  | cons s S' ih =>
      cases C with
      | nil => cases hlen
      | cons c C' =>
          rcases List.mem_cons.mp h0 with rfl | h'
          · exact List.mem_cons.mpr (Or.inl (by simp [pyCeilDiv_zero]))
          · exact List.mem_cons_of_mem _
              (ih C' (by simpa using hlen) h')

/-- Claim C1: for every ArrayDescriptor with shape `S` and chunk-size `C`
(equal length `N ≥ 1`, all chunk sizes positive), the chunk coordinate
enumerator of `fetch-ms-zarr.py` produces exactly `∏ᵢ ⌈Sᵢ/Cᵢ⌉` coordinates,
each coordinate unique, in lexicographic order with dimension 0 outermost
(varying slowest); and if any `Sᵢ` is `0` the produced sequence is empty. -/
theorem chunkCoords_spec (S C : List Nat) (hlen : S.length = C.length)
    (hN : 1 ≤ S.length) (hpos : ∀ c ∈ C, 0 < c) :
    (chunkCoords S C).length
        = (List.zipWith (fun s c => (s + c - 1) / c) S C).prod ∧
    (chunkCoords S C).Nodup ∧
    (chunkCoords S C).Pairwise (List.Lex (· < ·)) ∧
    (0 ∈ S → chunkCoords S C = []) := by
  refine ⟨?_, ?_, ?_, ?_⟩
  · rw [chunkCoords, length_itProduct, chunkRanges, List.map_zipWith]
    simp only [List.length_range]
    rw [zipWith_pyCeilDiv_eq S C hpos]
  · exact nodup_itProduct _ (fun r hr => by
      obtain ⟨n, rfl⟩ := mem_chunkRanges S C r hr
      exact List.nodup_range n)
  · exact pairwise_lex_itProduct _ (fun r hr => by
      obtain ⟨n, rfl⟩ := mem_chunkRanges S C r hr
      exact List.pairwise_lt_range n)
  · intro h0
    exact itProduct_of_mem_nil _ (chunkRanges_mem_nil S C hlen h0)

/-- Witness for Claim C1 at shape `[4, 4]`, chunk-size `[2, 2]`: four unique
chunk coordinates in lexicographic order, none of the extents zero. -/
theorem chunkCoords_spec_witness :
    (chunkCoords [4, 4] [2, 2]).length
        = (List.zipWith (fun s c => (s + c - 1) / c) [4, 4] [2, 2]).prod ∧
    (chunkCoords [4, 4] [2, 2]).Nodup ∧
    (chunkCoords [4, 4] [2, 2]).Pairwise (List.Lex (· < ·)) ∧
    (0 ∈ [4, 4] → chunkCoords [4, 4] [2, 2] = []) :=
  chunkCoords_spec [4, 4] [2, 2] (by decide) (by decide) (by decide)

/-! ## Theorems: the transfer driver (Claim C2) -/

/-- A prefix of coordinates whose fetches all succeed contributes its
fetch/store pairs and passes control to the rest of the sequence. -/
theorem chunkLoop_ok_prefix (head : String → Bool) (get : String → FetchRes)
    (u lp : String) (pre : List (List Nat)) (pl : List Nat → String)
    (hpre : ∀ c ∈ pre, get (u ++ chunkName c) = .found (pl c))
    (rest : List (List Nat)) :
    chunkLoop false head get u lp (pre ++ rest)
      = (pre.flatMap (fun c => [.getReq (u ++ chunkName c),
            .chunkWrite (lp ++ chunkName c) (pl c)])
          ++ (chunkLoop false head get u lp rest).1,
         (chunkLoop false head get u lp rest).2) := by
  induction pre with
  | nil => simp
  | cons c pre' ih =>
      have hc := hpre c (List.mem_cons_self _ _)
      have ih' := ih (fun c' h' => hpre c' (List.mem_cons_of_mem _ h'))
      simp only [List.cons_append, chunkLoop, hc, ih', List.flatMap_cons,
        List.append_assoc]
      simp [ih']

/-- Claim C2: when the source fails (`NotFound` or `TransientError`) at the
`k`-th coordinate and succeeds on the `k-1` before it, the transfer driver
of `fetch-ms-zarr.py` performs exactly the `k-1` fetch/store pairs of the
prefix followed by the fetch of the failing coordinate, halts reporting that
coordinate, performs no fetch or store for any later coordinate, and the
number of successful stores is exactly `k-1`. -/
theorem transferDriver_halts_spec (head : String → Bool)
    (get : String → FetchRes) (u lp : String) (pre : List (List Nat))
    (cf : List Nat) (post : List (List Nat)) (pl : List Nat → String)
    (hpre : ∀ c ∈ pre, get (u ++ chunkName c) = .found (pl c))
    (hf : get (u ++ chunkName cf) = .notFound ∨
          get (u ++ chunkName cf) = .transientError) :
    chunkLoop false head get u lp (pre ++ cf :: post)
      = (pre.flatMap (fun c => [.getReq (u ++ chunkName c),
            .chunkWrite (lp ++ chunkName c) (pl c)])
          ++ [.getReq (u ++ chunkName cf)],
         some ("failed to fetch chunk " ++ chunkName cf)) ∧
    ((chunkLoop false head get u lp (pre ++ cf :: post)).1.filter
        Effect.isChunkWrite).length = pre.length := by
  have hfail : chunkLoop false head get u lp (cf :: post)
      = ([.getReq (u ++ chunkName cf)],
         some ("failed to fetch chunk " ++ chunkName cf)) := by
    rcases hf with h | h <;> simp [chunkLoop, h]
  have main := chunkLoop_ok_prefix head get u lp pre pl hpre (cf :: post)
  rw [hfail] at main
  refine ⟨main, ?_⟩
  rw [main]
  simp only [List.filter_append]
  have hflat : ∀ (l : List (List Nat)),
      ((l.flatMap (fun c => [Effect.getReq (u ++ chunkName c),
          Effect.chunkWrite (lp ++ chunkName c) (pl c)])).filter
        Effect.isChunkWrite).length = l.length := by
    intro l
    induction l with
    | nil => rfl
    | cons a l' ih =>
        simp [List.flatMap_cons, List.filter_append, ih,
          Effect.isChunkWrite]

  simp [hflat, Effect.isChunkWrite]

/-- Witness for Claim C2: five chunk coordinates `[0] … [4]` of dataset URI
`"0/"`, the source `srcFail3` returning 404 on the third; the driver does
two fetch/store pairs, fetches the third, halts reporting chunk `2`, and
touches neither the fourth nor the fifth coordinate. -/
theorem transferDriver_halts_witness :
    chunkLoop false srcFail3.head srcFail3.get "0/" ""
        ([[0], [1]] ++ [2] :: [[3], [4]])
      = ([.getReq "0/0", .chunkWrite "0" "P",
          .getReq "0/1", .chunkWrite "1" "P",
          .getReq "0/2"],
         some "failed to fetch chunk 2") ∧
    ((chunkLoop false srcFail3.head srcFail3.get "0/" ""
        ([[0], [1]] ++ [2] :: [[3], [4]])).1.filter
        Effect.isChunkWrite).length = 2 := by
  have h := transferDriver_halts_spec srcFail3.head srcFail3.get "0/" ""
    [[0], [1]] [2] [[3], [4]] (fun _ => "P")
    (by intro c hc; fin_cases hc <;> rfl) (Or.inl rfl)
  simpa using h

/-! ## Theorems: the dry-run (check-only) variant (Claim C3) -/

/-- In dry-run mode the chunk loop issues only HEAD requests: no chunk GET
and no write of any kind appears in its trace. -/
theorem chunkLoop_dry_only_heads (head : String → Bool)
    (get : String → FetchRes) (u lp : String) (cs : List (List Nat)) :
    ∀ e ∈ (chunkLoop true head get u lp cs).1, e.isHeadReq = true := by
  induction cs with
  | nil => intro e he; cases he
  | cons c rest ih =>
      intro e he
      by_cases hh : head (u ++ chunkName c)
      · simp only [chunkLoop, hh, if_true] at he
        rcases List.mem_cons.mp he with rfl | he'
        · rfl
        · exact ih e he'
      · simp only [chunkLoop, hh, if_false] at he
        simp at he
        subst he
        rfl

/-- In dry-run mode, if every coordinate is present the loop completes with
one HEAD request per coordinate and no error. -/
theorem chunkLoop_dry_all_present (head : String → Bool)
    (get : String → FetchRes) (u lp : String) (cs : List (List Nat))
    (h : ∀ c ∈ cs, head (u ++ chunkName c) = true) :
    chunkLoop true head get u lp cs
      = (cs.map (fun c => .headReq (u ++ chunkName c)), none) := by
  induction cs with
  | nil => rfl
  | cons c rest ih =>
      have hc := h c (List.mem_cons_self _ _)
      have ih' := ih (fun c' h' => h c' (List.mem_cons_of_mem _ h'))
      simp [chunkLoop, hc, ih']

/-- In dry-run mode, the loop halts at the first absent coordinate, with a
HEAD request for it and for every coordinate before it, and none after. -/
theorem chunkLoop_dry_first_absent (head : String → Bool)
    (get : String → FetchRes) (u lp : String) (pre : List (List Nat))
    (cf : List Nat) (post : List (List Nat))
    (hpre : ∀ c ∈ pre, head (u ++ chunkName c) = true)
    (hcf : head (u ++ chunkName cf) = false) :
    chunkLoop true head get u lp (pre ++ cf :: post)
      = ((pre ++ [cf]).map (fun c => .headReq (u ++ chunkName c)),
         some ("check failed for chunk " ++ chunkName cf)) := by
  induction pre with
  | nil => simp [chunkLoop, hcf]
  | cons c pre' ih =>
      have hc := hpre c (List.mem_cons_self _ _)
      have ih' := ih (fun c' h' => hpre c' (List.mem_cons_of_mem _ h'))
      simp [chunkLoop, hc, ih']

/-- In dry-run mode, the loop completes without error exactly when every
coordinate answers the HEAD check. -/
theorem chunkLoop_dry_none_iff (head : String → Bool)
    (get : String → FetchRes) (u lp : String) (cs : List (List Nat)) :
    (chunkLoop true head get u lp cs).2 = none ↔
      ∀ c ∈ cs, head (u ++ chunkName c) = true := by
  induction cs with
  | nil => simp [chunkLoop]
  | cons c rest ih =>
      by_cases hh : head (u ++ chunkName c)
      · simp [chunkLoop, hh, ih]
      · simp [chunkLoop, hh]

/-- In dry-run mode the dataset loop's trace contains no chunk GET and no
chunk payload write. -/
theorem datasetLoop_dry_no_transfer {J : Type} (jm : JsonModel J)
    (src : Source) (ms : Bool) (b : String) (paths : List String) :
    ∀ e ∈ (datasetLoop jm src true ms b paths).1,
      e.isGetReq = false ∧ e.isChunkWrite = false := by
  induction paths with
  | nil => intro e he; cases he
  | cons path rest ih =>
      intro e he
      cases hz : src.zarray (b ++ (path ++ "/")) with
      | none => simp only [datasetLoop, hz] at he; cases he
      | some zraw =>
          rcases hcl : (chunkLoop true src.head src.get (b ++ (path ++ "/"))
              (if ms then path ++ "/" else "")
              (chunkCoords (jm.shape (jm.loads zraw))
                (jm.chunks (jm.loads zraw)))) with ⟨evs, err⟩
          have honly : ∀ e ∈ evs, e.isHeadReq = true := by
            intro e' he'
            have := chunkLoop_dry_only_heads src.head src.get
              (b ++ (path ++ "/")) (if ms then path ++ "/" else "")
              (chunkCoords (jm.shape (jm.loads zraw))
                (jm.chunks (jm.loads zraw))) e'
            rw [hcl] at this
            exact this he'
          have headFalse : ∀ e' : Effect, e'.isHeadReq = true →
              e'.isGetReq = false ∧ e'.isChunkWrite = false := by
            intro e' h'
            cases e' <;> simp_all [Effect.isHeadReq, Effect.isGetReq,
              Effect.isChunkWrite]
          cases err with
          | some msg =>
              simp only [datasetLoop, hz, hcl] at he
              exact headFalse e (honly e he)
          | none =>
              simp only [datasetLoop, hz, hcl] at he
              rcases List.mem_append.mp he with he' | he'
              · exact headFalse e (honly e he')
              · rcases List.mem_cons.mp he' with rfl | he''
                · exact ⟨rfl, rfl⟩
                · exact ih e he''

/-- In dry-run mode with every dataset's `.zarray` available, the dataset
loop completes exactly when every chunk of every dataset answers HEAD. -/
theorem datasetLoop_dry_none_iff {J : Type} (jm : JsonModel J)
    (src : Source) (ms : Bool) (b : String) (paths : List String)
    (zr : String → String)
    (hzr : ∀ path ∈ paths, src.zarray (b ++ (path ++ "/")) = some (zr path)) :
    (datasetLoop jm src true ms b paths).2 = none ↔
      ∀ path ∈ paths,
        ∀ coord ∈ chunkCoords (jm.shape (jm.loads (zr path)))
            (jm.chunks (jm.loads (zr path))),
          src.head (b ++ (path ++ "/") ++ chunkName coord) = true := by
  induction paths with
  | nil => simp [datasetLoop]
  | cons path rest ih =>
      have hz := hzr path (List.mem_cons_self _ _)
      have ih' := ih (fun p hp => hzr p (List.mem_cons_of_mem _ hp))
      simp only [datasetLoop, hz]
      rcases hcl : (chunkLoop true src.head src.get (b ++ (path ++ "/"))
          (if ms then path ++ "/" else "")
          (chunkCoords (jm.shape (jm.loads (zr path)))
            (jm.chunks (jm.loads (zr path))))) with ⟨evs, err⟩
      have hiff := chunkLoop_dry_none_iff src.head src.get
        (b ++ (path ++ "/")) (if ms then path ++ "/" else "")
        (chunkCoords (jm.shape (jm.loads (zr path)))
          (jm.chunks (jm.loads (zr path))))
      rw [hcl] at hiff
      cases err with
      | some msg =>
          simp only
          constructor
          · intro h; cases h
          · intro hall
            exfalso
            have : (some msg : Option String) = none := hiff.mpr (by
              intro c hc
              exact hall path (List.mem_cons_self _ _) c hc)
            cases this
      | none =>
          simp only
          rw [ih']
          constructor
          · intro hall
            intro p hp c hc
            rcases List.mem_cons.mp hp with rfl | hp'
            · exact hiff.mp rfl c hc
            · exact hall p hp' c hc
          · intro hall p hp c hc
            exact hall p (List.mem_cons_of_mem _ hp) c hc


/-- Unfolding of a multiscale run whose dataset loop hit `sys.exit(2)`. -/
theorem runFetchScript_ms_err {J : Type} (jm : JsonModel J) (src : Source)
    (dryRun : Bool) (baseUri zg za msg : String)
    (hzg : src.zgroup = some zg) (hza : src.zattrs = some za)
    (hms : jm.multiscales (jm.loads za) ≠ [])
    (hsome : (datasetLoop jm src dryRun true baseUri
        ((jm.multiscales (jm.loads za)).headD [])).2 = some msg) :
    runFetchScript jm src dryRun baseUri
      = ((datasetLoop jm src dryRun true baseUri
            ((jm.multiscales (jm.loads za)).headD [])).1,
         .exit2 msg) := by
  have hpos : 0 < (jm.multiscales (jm.loads za)).length :=
    List.length_pos.mpr hms
  simp only [runFetchScript, hzg, hza, if_pos hpos, decide_eq_true hpos]
  rw [hsome]

/-- Unfolding of a multiscale run whose dataset loop completed: the
re-serialized `.zgroup` and `.zattrs` sidecars are appended to the trace. -/
theorem runFetchScript_ms_ok {J : Type} (jm : JsonModel J) (src : Source)
    (dryRun : Bool) (baseUri zg za : String)
    (hzg : src.zgroup = some zg) (hza : src.zattrs = some za)
    (hms : jm.multiscales (jm.loads za) ≠ [])
    (hnone : (datasetLoop jm src dryRun true baseUri
        ((jm.multiscales (jm.loads za)).headD [])).2 = none) :
    runFetchScript jm src dryRun baseUri
      = ((datasetLoop jm src dryRun true baseUri
            ((jm.multiscales (jm.loads za)).headD [])).1
          ++ [.metaWrite ".zgroup" (jm.dumps (jm.loads zg) ++ "\n"),
              .metaWrite ".zattrs" (jm.dumps (jm.loads za) ++ "\n")],
         .completed) := by
  have hpos : 0 < (jm.multiscales (jm.loads za)).length :=
    List.length_pos.mpr hms
  simp only [runFetchScript, hzg, hza, if_pos hpos, decide_eq_true hpos]
  rw [hnone]
  simp

/-- Claim C3 (amended): in the dry-run variant the driver performs only
existence checks on chunk coordinates (no chunk GET and no chunk payload
write anywhere in the trace), reports success exactly when every coordinate
of every dataset is present, halting at the first absent coordinate at
driver level; however the metadata sidecar files are still written on a
successful run, so the run is not entirely write-free. -/
theorem dryRun_spec {J : Type} (jm : JsonModel J) (src : Source)
    (baseUri zg za : String) (zr : String → String)
    (hzg : src.zgroup = some zg) (hza : src.zattrs = some za)
    (hms : jm.multiscales (jm.loads za) ≠ [])
    (hzr : ∀ path ∈ (jm.multiscales (jm.loads za)).headD [],
      src.zarray (baseUri ++ (path ++ "/")) = some (zr path)) :
    (∀ e ∈ (runFetchScript jm src true baseUri).1,
        e.isGetReq = false ∧ e.isChunkWrite = false) ∧
    ((runFetchScript jm src true baseUri).2 = .completed ↔
      ∀ path ∈ (jm.multiscales (jm.loads za)).headD [],
        ∀ coord ∈ chunkCoords (jm.shape (jm.loads (zr path)))
            (jm.chunks (jm.loads (zr path))),
          src.head (baseUri ++ (path ++ "/") ++ chunkName coord) = true) ∧
    (∀ (u lp : String) (pre : List (List Nat)) (cf : List Nat)
        (post : List (List Nat)),
        (∀ c ∈ pre, src.head (u ++ chunkName c) = true) →
        src.head (u ++ chunkName cf) = false →
        chunkLoop true src.head src.get u lp (pre ++ cf :: post)
          = ((pre ++ [cf]).map (fun c => .headReq (u ++ chunkName c)),
             some ("check failed for chunk " ++ chunkName cf))) ∧
    ((runFetchScript jm src true baseUri).2 = .completed →
      .metaWrite ".zgroup" (jm.dumps (jm.loads zg) ++ "\n")
          ∈ (runFetchScript jm src true baseUri).1 ∧
      .metaWrite ".zattrs" (jm.dumps (jm.loads za) ++ "\n")
          ∈ (runFetchScript jm src true baseUri).1) := by
  have hiff := datasetLoop_dry_none_iff jm src true baseUri
    ((jm.multiscales (jm.loads za)).headD []) zr hzr
  have hnt := datasetLoop_dry_no_transfer jm src true baseUri
    ((jm.multiscales (jm.loads za)).headD [])
  cases hd2 : (datasetLoop jm src true true baseUri
      ((jm.multiscales (jm.loads za)).headD [])).2 with
  | some msg =>
      have hrun := runFetchScript_ms_err jm src true baseUri zg za msg
        hzg hza hms hd2
      rw [hrun]
      refine ⟨fun e he => hnt e he, ?_, ?_, ?_⟩
      · simp only
        constructor
        · intro h; cases h
        · intro hall
          rw [hd2] at hiff
          exact absurd (hiff.mpr hall) (by simp)
      · intro u lp pre cf post h1 h2
        exact chunkLoop_dry_first_absent src.head src.get u lp pre cf post h1 h2
      · intro h; cases h
  | none =>
      have hrun := runFetchScript_ms_ok jm src true baseUri zg za
        hzg hza hms hd2
      rw [hrun]
      refine ⟨?_, ?_, ?_, ?_⟩
      · intro e he
        rcases List.mem_append.mp he with he' | he'
        · exact hnt e he'
        · rcases List.mem_cons.mp he' with rfl | he''
          · exact ⟨rfl, rfl⟩
          · simp only [List.mem_singleton] at he''
            subst he''
            exact ⟨rfl, rfl⟩
      · rw [hd2] at hiff
        exact ⟨fun _ => hiff.mp rfl, fun _ => rfl⟩
      · intro u lp pre cf post h1 h2
        exact chunkLoop_dry_first_absent src.head src.get u lp pre cf post h1 h2
      · intro _
        constructor
        · exact List.mem_append.mpr (Or.inr (List.mem_cons_self _ _))
        · exact List.mem_append.mpr (Or.inr (List.mem_cons_of_mem _
            (List.mem_cons_self _ _)))

/-- Counterexample to Claim C3 as stated: a concrete dry run (one multiscale
dataset `"0"`, shape `[1]`, chunks `[1]`, every chunk present) completes
successfully, performs only the HEAD check on its single chunk, yet writes
three metadata files — so "no file is written by the run" is false. -/
theorem dryRun_writes_counterexample :
    runFetchScript jmId srcAll true "b/"
      = ([.headReq "b/0/0", .metaWrite "0/.zarray" "2\n",
          .metaWrite ".zgroup" "null\n", .metaWrite ".zattrs" "1\n"],
         .completed) ∧
    (runFetchScript jmId srcAll true "b/").1.filter Effect.isFileWrite ≠ [] := by
  constructor
  · rfl
  · intro h
    rw [show runFetchScript jmId srcAll true "b/"
        = ([.headReq "b/0/0", .metaWrite "0/.zarray" "2\n",
            .metaWrite ".zgroup" "null\n", .metaWrite ".zattrs" "1\n"],
           .completed) from rfl] at h
    simp [Effect.isFileWrite, Effect.isHeadReq] at h

/-- Witness for the amended Claim C3 on the concrete dry run: the run
completes (every coordinate present), issues no chunk GET and writes no
chunk payload, and the `.zgroup` sidecar write is in the trace. -/
theorem dryRun_spec_witness :
    (∀ e ∈ (runFetchScript jmId srcAll true "b/").1,
        e.isGetReq = false ∧ e.isChunkWrite = false) ∧
    (runFetchScript jmId srcAll true "b/").2 = .completed ∧
    Effect.metaWrite ".zgroup" "null\n"
        ∈ (runFetchScript jmId srcAll true "b/").1 := by
  have h := dryRun_spec jmId srcAll "b/" "null" "1" (fun _ => "2")
    rfl rfl (by simp [jmId]) (by intro p hp; rfl)
  have hc : (runFetchScript jmId srcAll true "b/").2 = .completed :=
    h.2.1.mpr (by decide)
  exact ⟨h.1, hc, ((h.2.2.2 hc).1 : _)⟩

/-! ## Theorems: metadata sidecar writes (Claim C4) -/

/-- Every dataset of a completed dataset loop had its `.zarray` sidecar
written, with content `json.dumps(json.loads(source bytes))` plus the
newline appended by `print`. -/
theorem datasetLoop_completed_zarray_writes {J : Type} (jm : JsonModel J)
    (src : Source) (dryRun ms : Bool) (b : String) (paths : List String)
    (hnone : (datasetLoop jm src dryRun ms b paths).2 = none) :
    ∀ path ∈ paths, ∀ zraw, src.zarray (b ++ (path ++ "/")) = some zraw →
      Effect.metaWrite ((if ms then path ++ "/" else "") ++ ".zarray")
          (jm.dumps (jm.loads zraw) ++ "\n")
        ∈ (datasetLoop jm src dryRun ms b paths).1 := by
  induction paths with
  | nil => intro p hp; cases hp
  | cons path rest ih =>
      intro p hp zraw hzp
      cases hz : src.zarray (b ++ (path ++ "/")) with
      | none =>
          exfalso
          simp only [datasetLoop, hz] at hnone
          cases hnone
      | some zraw0 =>
          rcases hcl : (chunkLoop dryRun src.head src.get (b ++ (path ++ "/"))
              (if ms then path ++ "/" else "")
              (chunkCoords (jm.shape (jm.loads zraw0))
                (jm.chunks (jm.loads zraw0)))) with ⟨evs, err⟩
          cases err with
          | some msg =>
              exfalso
              simp only [datasetLoop, hz, hcl] at hnone
              cases hnone
          | none =>
              have hnone' : (datasetLoop jm src dryRun ms b rest).2 = none := by
                simp only [datasetLoop, hz, hcl] at hnone
                exact hnone
              simp only [datasetLoop, hz, hcl]
              rcases List.mem_cons.mp hp with rfl | hp'
              · have : zraw = zraw0 := by
                  rw [hz] at hzp
                  injection hzp.symm
                subst this
                exact List.mem_append.mpr (Or.inr (List.mem_cons_self _ _))
              · exact List.mem_append.mpr (Or.inr (List.mem_cons_of_mem _
                  (ih hnone' p hp' zraw hzp)))

/-- Claim C4 (amended): the metadata sidecar documents are not copied
byte-for-byte; they are parsed with `response.json()` and re-serialized
with `json.dumps`, and `print` appends a newline, so every completed run
writes `.zgroup`, `.zattrs` and each mirrored dataset's `.zarray` with
content `dumps(loads(source bytes)) ++ "\n"`. -/
theorem metadata_reserialized_spec {J : Type} (jm : JsonModel J)
    (src : Source) (dryRun : Bool) (baseUri zg za : String)
    (hzg : src.zgroup = some zg) (hza : src.zattrs = some za)
    (hms : jm.multiscales (jm.loads za) ≠ [])
    (hcomp : (runFetchScript jm src dryRun baseUri).2 = .completed) :
    Effect.metaWrite ".zgroup" (jm.dumps (jm.loads zg) ++ "\n")
        ∈ (runFetchScript jm src dryRun baseUri).1 ∧
    Effect.metaWrite ".zattrs" (jm.dumps (jm.loads za) ++ "\n")
        ∈ (runFetchScript jm src dryRun baseUri).1 ∧
    ∀ path ∈ (jm.multiscales (jm.loads za)).headD [],
      ∀ zraw, src.zarray (baseUri ++ (path ++ "/")) = some zraw →
        Effect.metaWrite ((path ++ "/") ++ ".zarray")
            (jm.dumps (jm.loads zraw) ++ "\n")
          ∈ (runFetchScript jm src dryRun baseUri).1 := by
  cases hd2 : (datasetLoop jm src dryRun true baseUri
      ((jm.multiscales (jm.loads za)).headD [])).2 with
  | some msg =>
      exfalso
      have hrun := runFetchScript_ms_err jm src dryRun baseUri zg za msg
        hzg hza hms hd2
      rw [hrun] at hcomp
      cases hcomp
  | none =>
      have hrun := runFetchScript_ms_ok jm src dryRun baseUri zg za
        hzg hza hms hd2
      rw [hrun]
      refine ⟨?_, ?_, ?_⟩
      · exact List.mem_append.mpr (Or.inr (List.mem_cons_self _ _))
      · exact List.mem_append.mpr (Or.inr (List.mem_cons_of_mem _
          (List.mem_cons_self _ _)))
      · intro p hp zraw hzp
        have := datasetLoop_completed_zarray_writes jm src dryRun true
          baseUri ((jm.multiscales (jm.loads za)).headD []) hd2 p hp zraw hzp
        simp only [if_true] at this
        exact List.mem_append.mpr (Or.inl this)

/-- Counterexample to Claim C4 as stated: with identity `loads`/`dumps` and
source `.zgroup` bytes `"null"` (no trailing newline), a completed mirror
run writes `.zgroup` with bytes `"null\n"`, and no write of the verbatim
source bytes `"null"` occurs — the sidecar is not byte-for-byte identical. -/
theorem metadata_verbatim_counterexample :
    runFetchScript jmId srcAll false "b/"
      = ([.getReq "b/0/0", .chunkWrite "0/0" "B",
          .metaWrite "0/.zarray" "2\n",
          .metaWrite ".zgroup" "null\n", .metaWrite ".zattrs" "1\n"],
         .completed) ∧
    srcAll.zgroup = some "null" ∧
    Effect.metaWrite ".zgroup" "null\n"
        ∈ (runFetchScript jmId srcAll false "b/").1 ∧
    Effect.metaWrite ".zgroup" "null"
        ∉ (runFetchScript jmId srcAll false "b/").1 ∧
    "null\n" ≠ "null" := by
  refine ⟨rfl, rfl, ?_, ?_, ?_⟩ <;> decide

/-- Witness for the amended Claim C4 on the concrete completed mirror run:
the `.zgroup`, `.zattrs` and dataset `.zarray` sidecars are written with the
re-serialized content plus trailing newline. -/
theorem metadata_reserialized_spec_witness :
    Effect.metaWrite ".zgroup" "null\n"
        ∈ (runFetchScript jmId srcAll false "b/").1 ∧
    Effect.metaWrite ".zattrs" "1\n"
        ∈ (runFetchScript jmId srcAll false "b/").1 ∧
    Effect.metaWrite "0/.zarray" "2\n"
        ∈ (runFetchScript jmId srcAll false "b/").1 := by
  have h := metadata_reserialized_spec jmId srcAll false "b/" "null" "1"
    rfl rfl (by simp [jmId]) rfl
  exact ⟨h.1, h.2.1, h.2.2 "0" (by decide) "2" rfl⟩

/-! ## Theorems: empty multiscales list (Claim C9) -/

/-- Claim C9: when `.zgroup` and `.zattrs` are fetched successfully but the
`multiscales` list in `.zattrs` is empty, the `datasets` variable is never
assigned and the run ends in an unhandled `NameError` (not a reported exit-2
failure) with no chunk request and no file written; when the list is
non-empty, the run never ends in `NameError`. -/
theorem empty_multiscales_spec {J : Type} (jm : JsonModel J) (src : Source)
    (dryRun : Bool) (baseUri zg za : String)
    (hzg : src.zgroup = some zg) (hza : src.zattrs = some za) :
    (jm.multiscales (jm.loads za) = [] →
      runFetchScript jm src dryRun baseUri = ([], .nameError)) ∧
    (jm.multiscales (jm.loads za) ≠ [] →
      (runFetchScript jm src dryRun baseUri).2 ≠ .nameError) := by
  constructor
  · intro hms
    simp [runFetchScript, hzg, hza, hms]
  · intro hms
    cases hd2 : (datasetLoop jm src dryRun true baseUri
        ((jm.multiscales (jm.loads za)).headD [])).2 with
    | some msg =>
        rw [runFetchScript_ms_err jm src dryRun baseUri zg za msg
          hzg hza hms hd2]
        simp
    | none =>
        rw [runFetchScript_ms_ok jm src dryRun baseUri zg za
          hzg hza hms hd2]
        simp

/-- Witness for Claim C9: with the concrete empty-multiscales JSON
collaborator the run ends in `NameError` with an empty trace; with the
one-dataset collaborator it does not. -/
theorem empty_multiscales_spec_witness :
    runFetchScript jmNoMs srcAll true "b/" = ([], .nameError) ∧
    (runFetchScript jmId srcAll true "b/").2 ≠ .nameError := by
  constructor
  · exact (empty_multiscales_spec jmNoMs srcAll true "b/" "null" "1"
      rfl rfl).1 rfl
  · exact (empty_multiscales_spec jmId srcAll true "b/" "null" "1"
      rfl rfl).2 (by decide)

/-! ## Theorems: the pyramid builder (Claims C5, C6, C7) -/

/-- Closed form of the `local_mean` loop: level `k` is the `k`-fold
reduction of the base. -/
theorem methodLocalMean_eq {α : Type} (reduce : α → α) (m : Nat) (base : α) :
    methodLocalMean reduce m base
      = (List.range (m + 1)).map (fun k => reduce^[k] base) := by
  induction m with
  | zero => simp [methodLocalMean]
  | succ n ih =>
      unfold methodLocalMean at ih ⊢
      rw [List.range_succ, List.foldl_append, ih]
      simp only [List.foldl_cons, List.foldl_nil]
      rw [show List.range (n + 1 + 1) = List.range (n + 1) ++ [n + 1] from
        List.range_succ _]
      rw [List.map_append]
      congr 1
      have hlast : ((List.range (n + 1)).map
          (fun k => reduce^[k] base)).getLastD base = reduce^[n] base := by
        rw [List.range_succ, List.map_append]
        exact List.getLastD_concat _ _ _
      rw [hlast]
      simp [Function.iterate_succ_apply']

/-- The `local_mean` pyramid has `max_layer + 1` levels. -/
theorem methodLocalMean_length {α : Type} (reduce : α → α) (m : Nat)
    (base : α) : (methodLocalMean reduce m base).length = m + 1 := by
  rw [methodLocalMean_eq]; simp

/-- Indexing the `local_mean` pyramid. -/
theorem methodLocalMean_getD {α : Type} (reduce : α → α) (m : Nat) (base : α)
    (k : Nat) (hk : k ≤ m) :
    (methodLocalMean reduce m base).getD k base = reduce^[k] base := by
  rw [methodLocalMean_eq, List.getD_eq_getElem?_getD, List.getElem?_map,
    List.getElem?_range (by omega)]
  rfl

/-- Claim C5: for the windowed local-mean method with downscale factor `d`
and level count `max_layer`, `scale.py` produces exactly `max_layer + 1`
levels, level 0 is the base unchanged, each level `k ≥ 1` is the reduction
of level `k-1`, and — given that the reduction turns an extent `e` into
`⌈e/d⌉`, the rounding skimage's `downscale_local_mean` performs by padding —
each successive extent equals `⌈previous/d⌉`, which is `floor(previous/d)`
up to the method's rounding (between `previous/d` and `previous/d + 1`). -/
theorem localMean_pyramid_spec {α : Type} (reduce : α → α) (d : Nat)
    (ext : α → Nat) (base : α) (maxLayer : Nat) (hd : 0 < d)
    (hext : ∀ a, ext (reduce a) = (ext a + d - 1) / d) :
    (methodLocalMean reduce maxLayer base).length = maxLayer + 1 ∧
    (methodLocalMean reduce maxLayer base).getD 0 base = base ∧
    (∀ k, k < maxLayer →
      (methodLocalMean reduce maxLayer base).getD (k + 1) base
        = reduce ((methodLocalMean reduce maxLayer base).getD k base)) ∧
    (∀ k, k < maxLayer →
      ext ((methodLocalMean reduce maxLayer base).getD (k + 1) base)
        = (ext ((methodLocalMean reduce maxLayer base).getD k base) + d - 1)
            / d ∧
      ext ((methodLocalMean reduce maxLayer base).getD k base) / d
        ≤ ext ((methodLocalMean reduce maxLayer base).getD (k + 1) base) ∧
      ext ((methodLocalMean reduce maxLayer base).getD (k + 1) base)
        ≤ ext ((methodLocalMean reduce maxLayer base).getD k base) / d + 1) := by
  have hstep : ∀ k, k < maxLayer →
      (methodLocalMean reduce maxLayer base).getD (k + 1) base
        = reduce ((methodLocalMean reduce maxLayer base).getD k base) := by
    intro k hk
    rw [methodLocalMean_getD reduce maxLayer base (k + 1) (by omega),
      methodLocalMean_getD reduce maxLayer base k (by omega),
      Function.iterate_succ_apply']
  refine ⟨methodLocalMean_length reduce maxLayer base,
    methodLocalMean_getD reduce maxLayer base 0 (by omega), hstep, ?_⟩
  intro k hk
  have he : ext ((methodLocalMean reduce maxLayer base).getD (k + 1) base)
      = (ext ((methodLocalMean reduce maxLayer base).getD k base) + d - 1)
          / d := by
    rw [hstep k hk, hext]
  refine ⟨he, ?_, ?_⟩
  · rw [he]
    exact Nat.div_le_div_right (by omega)
  · rw [he]
    calc (ext ((methodLocalMean reduce maxLayer base).getD k base) + d - 1) / d
        ≤ (ext ((methodLocalMean reduce maxLayer base).getD k base) + d) / d :=
          Nat.div_le_div_right (by omega)
      _ = ext ((methodLocalMean reduce maxLayer base).getD k base) / d + 1 :=
          Nat.add_div_right _ hd

/-- Witness for Claim C5: extents under ceiling halving starting from 5 with
`max_layer = 3` — four levels, level 0 is the base, level 1 reduces it, and
the first reduced extent is at least `5 / 2`. -/
theorem localMean_pyramid_spec_witness :
    (methodLocalMean (fun e => (e + 2 - 1) / 2) 3 (5 : Nat)).length = 3 + 1 ∧
    (methodLocalMean (fun e => (e + 2 - 1) / 2) 3 (5 : Nat)).getD 0 5 = 5 ∧
    (methodLocalMean (fun e => (e + 2 - 1) / 2) 3 (5 : Nat)).getD (0 + 1) 5
      = (fun e => (e + 2 - 1) / 2)
          ((methodLocalMean (fun e => (e + 2 - 1) / 2) 3 (5 : Nat)).getD 0 5) ∧
    ((methodLocalMean (fun e => (e + 2 - 1) / 2) 3 (5 : Nat)).getD 0 5) / 2
      ≤ (methodLocalMean (fun e => (e + 2 - 1) / 2) 3 (5 : Nat)).getD (0 + 1) 5 := by
  have h := localMean_pyramid_spec (fun e => (e + 2 - 1) / 2) 2 id 5 3
    (by decide) (fun a => rfl)
  exact ⟨h.1, h.2.1, h.2.2.1 0 (by decide), (h.2.2.2 0 (by decide)).2.1⟩

/-- Closed form of the `zoom` method: the reversal of the base followed by
the zooms of the base by `d^0 … d^(m-1)`. -/
theorem zoom_foldl_eq {α : Type} (zoomF : α → Nat → α) (d m : Nat)
    (base : α) :
    methodZoom zoomF d m base
      = ((List.range m).map (fun i => zoomF base (d ^ i))).reverse
          ++ [base] := by
  unfold methodZoom
  have hfold : ∀ (l : List Nat) (init : List α),
      l.foldl (fun rv i => rv ++ [zoomF base (d ^ i)]) init
        = init ++ l.map (fun i => zoomF base (d ^ i)) := by
    intro l
    induction l with
    | nil => intro init; simp
    | cons x l' ih => intro init; simp [ih]
  rw [hfold]
  simp

/-- Counterexample to Claim C6 as stated: with `zoom(a, f) = a * f`,
downscale 2 and `max_layer = 2` on base 1 the `zoom` method returns
`[2, 1, 1]` — level 0 is not the base (it is the most-zoomed array) and
level 1 is not `zoom(base, f^1) = 2`. -/
theorem zoom_recursion_counterexample :
    methodZoom (fun a f => a * f) 2 2 1 = [2, 1, 1] ∧
    (methodZoom (fun a f => a * f) 2 2 1).getD 0 0 ≠ 1 ∧
    (methodZoom (fun a f => a * f) 2 2 1).getD 1 0 ≠ 1 * 2 ^ 1 := by
  decide

/-- Claim C6 (amended): the `zoom` method's output is the reversal of
`[base, zoom(base, f^0), …, zoom(base, f^(max_layer-1))]`: it has
`max_layer + 1` levels, every level is computed from the original base
array (never from the previous level), the final level is the base
unchanged, and level `k < max_layer` equals `zoom(base, f^(max_layer-1-k))`. -/
theorem methodZoom_amended {α : Type} (zoomF : α → Nat → α) (d m : Nat)
    (base : α) :
    (methodZoom zoomF d m base).length = m + 1 ∧
    (methodZoom zoomF d m base).getLastD base = base ∧
    ∀ k, k < m →
      (methodZoom zoomF d m base).getD k base
        = zoomF base (d ^ (m - 1 - k)) := by
  rw [zoom_foldl_eq]
  refine ⟨by simp, List.getLastD_concat _ _ _, ?_⟩
  intro k hk
  have hlen : ((List.range m).map
      (fun i => zoomF base (d ^ i))).reverse.length = m := by simp
  rw [List.getD_append _ _ _ k (by simpa using hk)]
  rw [List.getD_eq_getElem _ _ (by simpa using hk)]
  rw [List.getElem_reverse]
  simp

/-- Witness for the amended Claim C6 at `zoom(a, f) = a * f`, downscale 2,
`max_layer = 2`, base 1: three levels, last level the base, level 0 the
base zoomed by `2^(2-1-0)`. -/
theorem methodZoom_amended_witness :
    (methodZoom (fun a f => a * f) 2 2 1).length = 2 + 1 ∧
    (methodZoom (fun a f => a * f) 2 2 1).getLastD 1 = 1 ∧
    (methodZoom (fun a f => a * f) 2 2 1).getD 0 1 = 1 * 2 ^ (2 - 1 - 0) := by
  have h := methodZoom_amended (fun a f => a * f) 2 2 1
  exact ⟨h.1, h.2.1, h.2.2 0 (by decide)⟩

/-- Claim C7: with `--labeled` validation enabled, a pyramid in which some
downsampled level carries a value outside level 0's value set makes
`scale.py` raise the consistency exception before persisting anything (no
dataset is created); when every level's value set is a subset of level 0's,
no exception is raised and the `"base"` dataset plus one dataset per
downsampled level are persisted. -/
theorem labeled_validation_spec {α V : Type} [DecidableEq V]
    (vals : α → Finset V) (p0 : α) (rest : List α) :
    ((∃ l ∈ rest, ¬ vals l ⊆ vals p0) →
      runScale true vals (p0 :: rest) = (true, [])) ∧
    ((∀ l ∈ rest, vals l ⊆ vals p0) →
      runScale true vals (p0 :: rest)
        = (false,
           "base" :: ((List.range (rest.length + 1)).drop 1).map
             (fun i => toString i))) := by
  constructor
  · rintro ⟨l, hl, hsub⟩
    have hchk : labeledCheck vals (p0 :: rest) = false := by
      simp only [labeledCheck]
      rw [List.all_eq_false]
      exact ⟨l, hl, by simpa using hsub⟩
    simp [runScale, hchk]
  · intro hall
    have hchk : labeledCheck vals (p0 :: rest) = true := by
      simp only [labeledCheck]
      rw [List.all_eq_true]
      intro l hl
      simpa using hall l hl
    simp [runScale, hchk]

/-- Witness for Claim C7: level sets `{0,1}` then `{0,2}` (the value 2 is
invented) raise the error and persist nothing; level sets `{0,1}` then `{0}`
pass and persist `"base"` and `"1"`. -/
theorem labeled_validation_spec_witness :
    runScale true id [({0, 1} : Finset Nat), {0, 2}] = (true, []) ∧
    runScale true id [({0, 1} : Finset Nat), {0}] = (false, ["base", "1"]) := by
  constructor
  · exact (labeled_validation_spec id {0, 1} [{0, 2}]).1
      ⟨{0, 2}, by simp, by decide⟩
  · have h := (labeled_validation_spec id {0, 1} [{0}]).2
      (by intro l hl; simp at hl; subst hl; decide)
    simpa using h

/-! ## Theorems: resume mode (Claim C8) -/

/-- The fetch events of the download loop are exactly the not-yet-existing
coordinates, in order. -/
theorem idrDownloadLoop_filter_fetch (exs : Nat × Nat × Nat → Bool)
    (coords : List (Nat × Nat × Nat)) :
    (idrDownloadLoop exs coords).filter IdrEv.isPlaneFetch
      = (coords.filter (fun c => !exs c)).map IdrEv.planeFetch := by
  induction coords with
  | nil => rfl
  | cons c cs ih =>
      by_cases h : exs c <;>
        simp [idrDownloadLoop, h, ih, IdrEv.isPlaneFetch]

/-- The save events of the download loop are exactly the not-yet-existing
coordinates, in order. -/
theorem idrDownloadLoop_filter_save (exs : Nat × Nat × Nat → Bool)
    (coords : List (Nat × Nat × Nat)) :
    (idrDownloadLoop exs coords).filter IdrEv.isSave
      = (coords.filter (fun c => !exs c)).map IdrEv.save := by
  induction coords with
  | nil => rfl
  | cons c cs ih =>
      by_cases h : exs c <;>
        simp [idrDownloadLoop, h, ih, IdrEv.isSave, IdrEv.isPlaneFetch]

/-- Every coordinate of the download loop gets its existence check. -/
theorem idrDownloadLoop_filter_check (exs : Nat × Nat × Nat → Bool)
    (coords : List (Nat × Nat × Nat)) :
    (idrDownloadLoop exs coords).filter IdrEv.isExistsCheck
      = coords.map IdrEv.existsCheck := by
  induction coords with
  | nil => rfl
  | cons c cs ih =>
      by_cases h : exs c <;>
        simp [idrDownloadLoop, h, ih, IdrEv.isExistsCheck,
          IdrEv.isPlaneFetch, IdrEv.isSave]

/-- Claim C8: in the resume-mode download loop, every coordinate gets
exactly one existence check, the plane fetches are exactly the
not-yet-existing coordinates in enumeration order, the saves likewise, and
no fetch or save happens for a coordinate that already exists. -/
theorem resume_mode_spec (exs : Nat × Nat × Nat → Bool)
    (coords : List (Nat × Nat × Nat)) :
    (idrDownloadLoop exs coords).filter IdrEv.isPlaneFetch
        = (coords.filter (fun c => !exs c)).map IdrEv.planeFetch ∧
    (idrDownloadLoop exs coords).filter IdrEv.isSave
        = (coords.filter (fun c => !exs c)).map IdrEv.save ∧
    (idrDownloadLoop exs coords).filter IdrEv.isExistsCheck
        = coords.map IdrEv.existsCheck ∧
    ∀ c ∈ coords, exs c = true →
      IdrEv.planeFetch c ∉ idrDownloadLoop exs coords ∧
      IdrEv.save c ∉ idrDownloadLoop exs coords := by
  have hfetch := idrDownloadLoop_filter_fetch exs coords
  have hsave := idrDownloadLoop_filter_save exs coords
  have hcheck := idrDownloadLoop_filter_check exs coords
  refine ⟨hfetch, hsave, hcheck, ?_⟩
  intro c _ hex
  constructor
  · intro hmem
    have hmem' : IdrEv.planeFetch c
        ∈ (idrDownloadLoop exs coords).filter IdrEv.isPlaneFetch :=
      List.mem_filter.mpr ⟨hmem, rfl⟩
    rw [hfetch] at hmem'
    obtain ⟨c', hc', heq⟩ := List.mem_map.mp hmem'
    have : c' = c := by injection heq
    subst this
    have := (List.mem_filter.mp hc').2
    rw [hex] at this
    cases this
  · intro hmem
    have hmem' : IdrEv.save c
        ∈ (idrDownloadLoop exs coords).filter IdrEv.isSave :=
      List.mem_filter.mpr ⟨hmem, rfl⟩
    rw [hsave] at hmem'
    obtain ⟨c', hc', heq⟩ := List.mem_map.mp hmem'
    have : c' = c := by injection heq
    subst this
    have := (List.mem_filter.mp hc').2
    rw [hex] at this
    cases this

/-- Witness for Claim C8: four coordinates with the first two already
existing — the loop fetches and saves only the third and fourth, in order,
checks all four, and never fetches or saves the first. -/
theorem resume_mode_spec_witness :
    (idrDownloadLoop (fun c => decide (c.2.2 < 2))
        [(0, 0, 0), (0, 0, 1), (0, 0, 2), (0, 0, 3)]).filter
        IdrEv.isPlaneFetch
      = [IdrEv.planeFetch (0, 0, 2), IdrEv.planeFetch (0, 0, 3)] ∧
    IdrEv.planeFetch (0, 0, 0)
      ∉ idrDownloadLoop (fun c => decide (c.2.2 < 2))
          [(0, 0, 0), (0, 0, 1), (0, 0, 2), (0, 0, 3)] := by
  have h := resume_mode_spec (fun c => decide (c.2.2 < 2))
    [(0, 0, 0), (0, 0, 1), (0, 0, 2), (0, 0, 3)]
  refine ⟨?_, (h.2.2.2 (0, 0, 0) (by decide) (by decide)).1⟩
  rw [h.1]
  rfl

/-! ## Theorems: omero_to_zarr plane alignment (Claim C10) -/

/-- Consuming a plane list built by mapping over the very coordinate list
the consumer iterates yields one aligned write per coordinate. -/
theorem consumeWrites_map {P : Type} (g : Nat × Nat × Nat → P)
    (l : List (Nat × Nat × Nat)) :
    consumeWrites l (l.map g)
      = l.map (fun zct => ((zct.2.1, zct.1, zct.2.2), g zct)) := by
  induction l with
  | nil => rfl
  | cons zct rest ih =>
      rcases zct with ⟨z, c, t⟩
      simp [consumeWrites, ih]

/-- The zct coordinate list has no duplicate coordinate. -/
theorem zctList_nodup (sizeZ sizeC sizeT : Nat) :
    (zctList sizeZ sizeC sizeT).Nodup := by
  rw [zctList, List.nodup_flatMap]
  refine ⟨fun z _ => ?_, ?_⟩
  · rw [List.nodup_flatMap]
    refine ⟨fun c _ => ?_, ?_⟩
    · exact (List.nodup_range _).map (fun a b hab => by
        simpa using congrArg (fun q : Nat × Nat × Nat => q.2.2) hab)
    · refine (List.nodup_range sizeC).imp ?_
      intro a b hab
      show List.Disjoint _ _
      intro x hx hx'
      obtain ⟨t1, _, rfl⟩ := List.mem_map.mp hx
      obtain ⟨t2, _, heq⟩ := List.mem_map.mp hx'
      exact hab (congrArg (fun q : Nat × Nat × Nat => q.2.1) heq).symm
  · refine (List.nodup_range sizeZ).imp ?_
    intro a b hab
    show List.Disjoint _ _
    intro x hx hx'
    obtain ⟨c1, _, hx1⟩ := List.mem_flatMap.mp hx
    obtain ⟨t1, _, rfl⟩ := List.mem_map.mp hx1
    obtain ⟨c2, _, hx2⟩ := List.mem_flatMap.mp hx'
    obtain ⟨t2, _, heq⟩ := List.mem_map.mp hx2
    exact hab (congrArg (fun q : Nat × Nat × Nat => q.1) heq).symm

/-- Membership in the zct coordinate list. -/
theorem mem_zctList (sizeZ sizeC sizeT : Nat) (z c t : Nat) :
    (z, c, t) ∈ zctList sizeZ sizeC sizeT ↔
      z < sizeZ ∧ c < sizeC ∧ t < sizeT := by
  simp only [zctList, List.mem_flatMap, List.mem_map, List.mem_range]
  constructor
  · rintro ⟨a, ha, b, hb, c', hc', heq⟩
    injection heq with e1 e2
    injection e2 with e2 e3
    subst e1; subst e2; subst e3
    exact ⟨ha, hb, hc'⟩
  · rintro ⟨hz, hc, ht⟩
    exact ⟨z, hz, c, hc, t, ht, rfl⟩

/-- Claim C10: in `image_to_zarr`, the plane requested for coordinate
`(z, c, t)` is written exactly to array index `[c, z, t]` and to no other
index: the write trace is the coordinate list with each entry's plane, no
array cell is written twice, every in-range cell `(c, z, t)` receives plane
`(z, c, t)`, and any write to `(c, z, t)` carries that very plane. -/
theorem omero_plane_alignment {P : Type} (getPlane : Nat × Nat × Nat → P)
    (sizeZ sizeC sizeT : Nat) :
    imageToZarrWrites getPlane sizeZ sizeC sizeT
      = (zctList sizeZ sizeC sizeT).map
          (fun zct => ((zct.2.1, zct.1, zct.2.2), getPlane zct)) ∧
    ((imageToZarrWrites getPlane sizeZ sizeC sizeT).map Prod.fst).Nodup ∧
    (∀ z c t, z < sizeZ → c < sizeC → t < sizeT →
      ((c, z, t), getPlane (z, c, t))
        ∈ imageToZarrWrites getPlane sizeZ sizeC sizeT) ∧
    (∀ z c t (p : P),
      ((c, z, t), p) ∈ imageToZarrWrites getPlane sizeZ sizeC sizeT →
        p = getPlane (z, c, t)) := by
  have h1 : imageToZarrWrites getPlane sizeZ sizeC sizeT
      = (zctList sizeZ sizeC sizeT).map
          (fun zct => ((zct.2.1, zct.1, zct.2.2), getPlane zct)) :=
    consumeWrites_map getPlane (zctList sizeZ sizeC sizeT)
  refine ⟨h1, ?_, ?_, ?_⟩
  · rw [h1, List.map_map]
    have : (Prod.fst ∘ fun zct : Nat × Nat × Nat =>
        ((zct.2.1, zct.1, zct.2.2), getPlane zct))
        = fun zct : Nat × Nat × Nat => (zct.2.1, zct.1, zct.2.2) := rfl
    rw [this]
    refine (zctList_nodup sizeZ sizeC sizeT).map ?_
    intro a b hab
    rcases a with ⟨az, ac, at'⟩
    rcases b with ⟨bz, bc, bt⟩
    injection hab with e1 e2
    injection e2 with e2 e3
    subst e1; subst e2; subst e3
    rfl
  · intro z c t hz hc ht
    rw [h1]
    exact List.mem_map.mpr ⟨(z, c, t),
      (mem_zctList sizeZ sizeC sizeT z c t).mpr ⟨hz, hc, ht⟩, rfl⟩
  · intro z c t p hmem
    rw [h1] at hmem
    obtain ⟨⟨z', c', t'⟩, _, heq⟩ := List.mem_map.mp hmem
    have h2 : ((c', z', t') : Nat × Nat × Nat) = (c, z, t) :=
      congrArg Prod.fst heq
    have h3 : getPlane (z', c', t') = p := congrArg Prod.snd heq
    injection h2 with e1 e2
    injection e2 with e2 e3
    subst e1; subst e2; subst e3
    exact h3.symm

/-- Witness for Claim C10 at `getPlane = id`, sizes Z=1, C=2, T=1: the cell
`(1, 0, 0)` receives exactly the plane of coordinate `(0, 1, 0)`. -/
theorem omero_plane_alignment_witness :
    (((1, 0, 0), ((0, 1, 0) : Nat × Nat × Nat))
        ∈ imageToZarrWrites id 1 2 1) ∧
    (0, 1, 0) = id ((0, 1, 0) : Nat × Nat × Nat) := by
  have h := omero_plane_alignment (id : Nat × Nat × Nat → Nat × Nat × Nat) 1 2 1
  refine ⟨h.2.2.1 0 1 0 (by decide) (by decide) (by decide), ?_⟩
  exact (h.2.2.2 0 1 0 (0, 1, 0)
    (h.2.2.1 0 1 0 (by decide) (by decide) (by decide))).symm

end OmeZarr
